import Mathlib

/-!
Verification development for the treemap viewer script
(lighthouse-viewer/app/treemap/treemap.js).

The script is embedded shallowly:

* JavaScript numbers are embedded as exact rationals, together with the
  non-finite values NaN and positive/negative Infinity that arise from the
  unguarded divisions by zero (type JVal).  Every concrete quantity the
  claims mention is exactly representable, so rational arithmetic agrees
  with the double arithmetic of the source on those inputs.
* A tree node is the record of every field the script reads or writes
  (type ND) plus an optional children list (type Node); an absent object
  field is none.  The rendered element reference and its two inline styles
  are carried as the fields hasDom, styleBackgroundColor and styleColor.
* In-place mutation becomes explicit state passing: a dfs pass whose
  callback rewrites fields of the visited node is the structural map
  dfsMap, and the order in which dfs applies its callback is the list dfs.
* The external webtreemap library is not part of the repository; its two
  operations are modelled from the specification (see webtreemapSort and
  webtreemapRender).
-/

/-- JavaScript number values arising in this script: exact rationals plus
the non-finite values produced by dividing by zero (NaN, Infinity and
-Infinity). -/
inductive JVal where
  | num (q : ℚ)
  | nan
  | inf
  | ninf
deriving Repr, DecidableEq

namespace JVal

/-- JavaScript division a / b of two (finite, rational) numbers: for a
nonzero divisor the exact quotient, and for a zero divisor NaN on 0 / 0,
Infinity on positive / 0 and -Infinity on negative / 0. -/
def jdiv (a b : ℚ) : JVal :=
  if b = 0 then
    if 0 < a then inf else if a < 0 then ninf else nan
  else num (a / b)

/-- JavaScript subtraction c - x of a value from a rational constant. -/
def subL (c : ℚ) : JVal → JVal
  | num q => num (c - q)
  | nan => nan
  | inf => ninf
  | ninf => inf

/-- JavaScript multiplication c * x by a rational constant. -/
def mulL (c : ℚ) : JVal → JVal
  | num q => num (c * q)
  | nan => nan
  | inf => if 0 < c then inf else if c < 0 then ninf else nan
  | ninf => if 0 < c then ninf else if c < 0 then inf else nan

/-- JavaScript multiplication x * c by a rational constant on the right. -/
def mulR (x : JVal) (c : ℚ) : JVal := mulL c x

/-- JavaScript addition c + x of a value to a rational constant. -/
def addL (c : ℚ) : JVal → JVal
  | num q => num (c + q)
  | nan => nan
  | inf => inf
  | ninf => ninf

/-- The JavaScript comparison x > c: false whenever x is NaN or -Infinity,
true for Infinity, and the rational comparison otherwise. -/
def gt (x : JVal) (c : ℚ) : Bool :=
  match x with
  | num q => decide (c < q)
  | nan => false
  | inf => true
  | ninf => false

/-- The string a template literal produces for Math.round(x): the
half-up rounding of a finite value, and the literal spellings of the
non-finite values (Math.round is the identity on those). -/
def roundToString : JVal → String
  | num q => toString (⌊q + 1 / 2⌋ : ℤ)
  | nan => "NaN"
  | inf => "Infinity"
  | ninf => "-Infinity"

end JVal

/-- The data carried by one treemap node: every field the script reads or
writes, except the children list which lives on Node.  Fields the incoming
trees do not carry yet are none until the corresponding pass writes them.
hasDom stands for the element back-reference the layout library installs,
and styleBackgroundColor / styleColor for the two inline styles
updateColors writes through it. -/
structure ND where
  id : Option String
  size : ℚ
  wastedBytes : ℚ
  originalId : Option String := none
  idHash : Option ℕ := none
  hasDom : Bool := false
  styleBackgroundColor : Option String := none
  styleColor : Option String := none
deriving Repr, DecidableEq

/-- A treemap node: its own data plus children, which like the source
object field may be absent (none) or present as a (possibly empty) list. -/
inductive Node where
  | mk (data : ND) (children : Option (List Node))

/-- The data record of a node. -/
def Node.data : Node → ND
  | .mk d _ => d

/-- The children field of a node. -/
def Node.children : Node → Option (List Node)
  | .mk _ cs => cs

mutual

/-- The visit order of dfs(node, fn): fn is applied to exactly the nodes of
this list, in this order — the node itself first, then the nodes of each
child subtree in order, recursing into children only when the field is
present. -/
def dfs : Node → List Node
  | .mk d none => [.mk d none]
  | .mk d (some cs) => .mk d (some cs) :: dfsL cs

/-- The visit order of dfs over a child list, left to right. -/
def dfsL : List Node → List Node
  | [] => []
  | c :: cs => dfs c ++ dfsL cs

end

mutual

/-- dfs(node, fn) for a callback fn that rewrites fields of the visited
node itself: since every callback in the script only touches the visited
node, the whole pass is this structural map. -/
def dfsMap (f : ND → ND) : Node → Node
  | .mk d none => .mk (f d) none
  | .mk d (some cs) => .mk (f d) (some (dfsMapL f cs))

/-- dfsMap over a child list. -/
def dfsMapL (f : ND → ND) : List Node → List Node
  | [] => []
  | c :: cs => dfsMap f c :: dfsMapL f cs

end

mutual

/-- Positions of a tree, paired with the subtree rooted there: the
specification device used to state the dfs contract.  A position is the
list of child indices on the path from the root; the enumeration is in
pre-order, mirroring dfs. -/
def pnodes : Node → List (List ℕ × Node)
  | .mk d none => [([], .mk d none)]
  | .mk d (some cs) => ([], .mk d (some cs)) :: pnodesL 0 cs

/-- Positions over a child list, whose first child has index i. -/
def pnodesL : ℕ → List Node → List (List ℕ × Node)
  | _, [] => []
  | i, c :: cs => (pnodes c).map (fun x => (i :: x.1, x.2)) ++ pnodesL (i + 1) cs

end

/-- The constant const MODE = "wastedBytes". -/
def MODE : String := "wastedBytes"

/-- Template-literal interpolation of a possibly absent string: an absent
field prints as the word undefined. -/
def optToString : Option String → String
  | some s => s
  | none => "undefined"

/-- The callback of setTitle on one node.  It reads size, wastedBytes and
originalId and rewrites id.  The node field named total is never written
anywhere in the script, so in the dead "default" branch the quotient
size / total divides by an undefined value, which JavaScript turns into
NaN. -/
def setTitleF (d : ND) : ND :=
  if MODE = "default" then
    { d with id := some (optToString d.originalId ++ " • " ++
        JVal.roundToString (.num d.size) ++ " • " ++
        JVal.roundToString (JVal.mulR .nan 100)) }
  else if MODE = "wastedBytes" then
    { d with id := some (optToString d.originalId ++ " • " ++
        JVal.roundToString (.num d.size) ++ " • " ++
        JVal.roundToString (JVal.mulR (JVal.jdiv d.wastedBytes d.size) 100)) }
  else d

/-- setTitle: the dfs pass that rewrites every node id into its display
label. -/
def setTitle : Node → Node := dfsMap setTitleF

/-- The helper hsl(h, s, l); the script always passes Math.round(l) for
the lightness, rendered here as its interpolated string. -/
def hsl (h s : ℕ) (l : String) : String :=
  "hsl(" ++ toString h ++ ", " ++ toString s ++ "%, " ++ l ++ "%)"

/-- The fixed 4-entry hue/saturation palette of updateColors. -/
def colors : List (ℕ × ℕ) := [(30, 60), (94, 60), (124, 60), (254, 60)]

/-- The palette lookup colors[node.idHash % colors.length || 0] of
updateColors: an absent idHash makes idHash % 4 evaluate to NaN, which
the fallback || 0 replaces by 0; a number h gives h % 4 (when that is 0,
the fallback 0 || 0 leaves it 0). -/
def selectColor (idHash : Option ℕ) : Option (ℕ × ℕ) :=
  colors.get? (match idHash with
    | some h => h % colors.length
    | none => 0)

/-- The same palette lookup with the fallback removed, following the
specification words that call the fallback redundant: an absent idHash
then indexes the array at NaN, which yields undefined (none). -/
def selectColorNoFallback (idHash : Option ℕ) : Option (ℕ × ℕ) :=
  match idHash with
  | some h => colors.get? (h % colors.length)
  | none => none

/-- The local l of updateColors: 25 + (85 - 25) * (1 - wastedBytes / size),
computed in JavaScript number semantics. -/
def lightness (d : ND) : JVal :=
  JVal.addL 25 (JVal.mulL (85 - 25) (JVal.subL 1 (JVal.jdiv d.wastedBytes d.size)))

/-- The callback of updateColors on one node: skip nodes that never got a
rendered element; otherwise pick the palette entry, compute the lightness
and write the two inline styles.  With the fallback in place the palette
lookup always succeeds, so the none branch is unreachable; it returns the
node unchanged. -/
def updateColorsF (d : ND) : ND :=
  if !d.hasDom then d
  else
    match selectColor d.idHash with
    | none => d
    | some c =>
      { d with
        styleBackgroundColor :=
          some (hsl c.1 c.2 (JVal.roundToString (lightness d)))
        styleColor := some (if (lightness d).gt 50 then "black" else "white") }

/-- updateColors: the dfs pass that recolors every rendered node. -/
def updateColors : Node → Node := dfsMap updateColorsF

/-- The hash of a root id: the reduce over the spread string
[...rootNode.id].reduce((acc, char) => acc + char.charCodeAt(0), 0). -/
def charSum (s : String) : ℕ :=
  s.data.foldl (fun acc c => acc + c.toNat) 0

/-- One entry of the incoming rootNodes array. -/
structure RootNode where
  id : String
  group : String
  node : Node

/-- The viewer state: document URL, the annotated root list, and the
currently shown (cloned and display-mutated) tree, absent until the first
show.  The mount element and the layout object are DOM handles and carry
no further state of their own here. -/
structure TreemapViewer where
  documentUrl : String
  rootNodes : List RootNode
  currentRootNode : Option Node

/-- Modelled from the spec: webtreemap.sort, the external collaborator
that re-sorts children by its own rule, treated as opaque; the reordering
itself is modelled as leaving the order unchanged. -/
def webtreemapSort : Node → Node := fun n => n

/-- Modelled from the spec: constructing webtreemap.TreeMap on the mount
element and rendering it, which annotates each tree node with a
back-reference to its rendered element; modelled as setting hasDom on
every node. -/
def webtreemapRender : Node → Node := dfsMap (fun d => { d with hasDom := true })

/-- The TreemapViewer constructor: for each root, copy id into originalId
on every node of its tree, stamp the charSum of the root id as idHash on
every node, and hand the tree to webtreemap.sort.  (The line
rootNode.id = rootNode.id of the source is a no-op.) -/
def TreemapViewer.make (documentUrl : String) (rootNodes : List RootNode) :
    TreemapViewer :=
  { documentUrl := documentUrl
    rootNodes := rootNodes.map (fun rootNode =>
      let annotated := dfsMap (fun d => { d with originalId := d.id }) rootNode.node
      let idHash := charSum rootNode.id
      let stamped := dfsMap (fun d => { d with idHash := some idHash }) annotated
      { rootNode with node := webtreemapSort stamped })
    currentRootNode := none }

/-- The ephemeral aggregate node built by show for the reserved synthetic
id: children are the nodes of exactly the roots whose group equals the id,
taken directly (not copied), and size / wastedBytes are the reduces of the
respective fields over those children.  The object literal carries no id,
no idHash and no element reference. -/
def aggregateNode (v : TreemapViewer) (id : String) : Node :=
  let children := (v.rootNodes.filter (fun rootNode => rootNode.group = id)).map
    (fun rootNode => rootNode.node)
  .mk
    { id := none
      size := children.foldl (fun acc cur => cur.data.size + acc) 0
      wastedBytes := children.foldl (fun acc cur => cur.data.wastedBytes + acc) 0
      originalId := some v.documentUrl }
    (some children)

mutual

/-- The deep clone JSON.parse(JSON.stringify(x)).  Every field the cloned
trees can carry at this point is JSON-representable and absent fields stay
absent, so the copy rebuilds the tree with identical data. -/
def jsonClone : Node → Node
  | .mk d none => .mk d none
  | .mk d (some cs) => .mk d (some (jsonCloneL cs))

/-- jsonClone over a child list. -/
def jsonCloneL : List Node → List Node
  | [] => []
  | c :: cs => jsonClone c :: jsonCloneL cs

end

/-- TreemapViewer.show (spelled showId because show is a Lean keyword):
pick the aggregate for the reserved id "javascript", otherwise the unique
root with the given id (none models the TypeError thrown when the lookup
finds nothing); then deep-clone, relabel with setTitle, lay out and render
through webtreemap, and recolor with updateColors. -/
def TreemapViewer.showId (v : TreemapViewer) (id : String) : Option TreemapViewer :=
  let chosen : Option Node :=
    if id = "javascript" then some (aggregateNode v id)
    else (v.rootNodes.find? (fun rootNode => rootNode.id = id)).map
      (fun rootNode => rootNode.node)
  match chosen with
  | none => none
  | some n =>
    some { v with
      currentRootNode :=
        some (updateColors (webtreemapRender (setTitle (jsonClone n)))) }

/-- An in-place mutation of the currently shown tree (what the layout
library and the recolor passes do after show), as explicit state passing
on the viewer. -/
def mutateCurrent (f : Node → Node) (v : TreemapViewer) : TreemapViewer :=
  { v with currentRootNode := v.currentRootNode.map f }

/-- One incoming message event: whether e.source === self.opener, and the
three destructured payload fields, each none when absent.  An absent
string field and the empty string are the falsy strings; an array is
always truthy, so rootNodes is falsy exactly when absent. -/
structure Msg where
  fromOpener : Bool
  documentUrl : Option String
  id : Option String
  rootNodes : Option (List RootNode)

/-- JavaScript falsiness of an optional string field. -/
def strFalsy : Option String → Bool
  | none => true
  | some s => s == ""

/-- The window state the message listener can touch: the selector options
(value, text), the selector value, the module-level viewer variable, the
messages posted to the opener, and whether the opener is alive. -/
structure AppState where
  options : List (String × String)
  selectorValue : Option String
  viewer : Option TreemapViewer
  posted : List String
  openerAlive : Bool

/-- The message listener of main.  Messages from any source other than the
opener are ignored, as is any message with a missing or falsy documentUrl,
id or rootNodes.  Otherwise: add the synthetic all-javascript option and
one option per root, set the selector value, construct the viewer, show
the given id and (when the opener is alive) post the rendered
acknowledgement.  none models an exception escaping the listener. -/
def handleMessage (st : AppState) (m : Msg) : Option AppState :=
  if !m.fromOpener then some st
  else
    match m.rootNodes, m.documentUrl, m.id with
    | some rootNodes, some documentUrl, some id =>
      if documentUrl == "" || id == "" then some st
      else
        match (TreemapViewer.make documentUrl rootNodes).showId id with
        | none => none
        | some tv =>
          some { st with
            options := st.options ++
              (("javascript", documentUrl ++ " (all javascript)") ::
                rootNodes.map (fun rootNode => (rootNode.id, rootNode.id)))
            selectorValue := some id
            viewer := some tv
            posted := st.posted ++ (if st.openerAlive then ["rendered"] else []) }
    | _, _, _ => some st

mutual

theorem dfs_dfsMap (f : ND → ND) : ∀ t : Node,
    (dfs (dfsMap f t)).map Node.data = (dfs t).map (fun n => f n.data)
  | .mk d none => by simp [dfs, dfsMap, Node.data]
  | .mk d (some cs) => by
    simp [dfs, dfsMap, Node.data, dfsL_dfsMapL f cs]

theorem dfsL_dfsMapL (f : ND → ND) : ∀ cs : List Node,
    (dfsL (dfsMapL f cs)).map Node.data = (dfsL cs).map (fun n => f n.data)
  | [] => by simp [dfsL, dfsMapL]
  | c :: cs => by
    simp [dfsL, dfsMapL, dfs_dfsMap f c, dfsL_dfsMapL f cs]

end

mutual

theorem dfsMap_comp (f g : ND → ND) : ∀ t : Node,
    dfsMap f (dfsMap g t) = dfsMap (fun d => f (g d)) t
  | .mk d none => by simp [dfsMap]
  | .mk d (some cs) => by simp [dfsMap, dfsMapL_comp f g cs]

theorem dfsMapL_comp (f g : ND → ND) : ∀ cs : List Node,
    dfsMapL f (dfsMapL g cs) = dfsMapL (fun d => f (g d)) cs
  | [] => by simp [dfsMapL]
  | c :: cs => by simp [dfsMapL, dfsMap_comp f g c, dfsMapL_comp f g cs]

end

mutual

theorem jsonClone_eq : ∀ t : Node, jsonClone t = t
  | .mk d none => by simp [jsonClone]
  | .mk d (some cs) => by simp [jsonClone, jsonCloneL_eq cs]

theorem jsonCloneL_eq : ∀ cs : List Node, jsonCloneL cs = cs
  | [] => by simp [jsonCloneL]
  | c :: cs => by simp [jsonCloneL, jsonClone_eq c, jsonCloneL_eq cs]

end

theorem foldl_add_field (g : Node → ℚ) :
    ∀ (l : List Node) (a : ℚ),
      l.foldl (fun acc cur => g cur + acc) a = (l.map g).sum + a
  | [], a => by simp
  | c :: cs, a => by
    simp [List.foldl_cons, foldl_add_field g cs (g c + a)]
    ring

theorem selectColor_isSome (idHash : Option ℕ) :
    ∃ c, selectColor idHash = some c := by
  cases idHash with
  | none => exact ⟨(30, 60), rfl⟩
  | some h =>
    rw [selectColor]
    have hlt : h % colors.length < colors.length := Nat.mod_lt _ (by simp [colors])
    exact ⟨colors.get ⟨h % colors.length, hlt⟩, List.get?_eq_get hlt⟩

theorem pnodesL_head (cs : List Node) :
    ∀ (i : ℕ) (x : List ℕ × Node), x ∈ pnodesL i cs →
      ∃ j p, x.1 = j :: p ∧ i ≤ j := by
  induction cs with
  | nil => intro i x hx; simp [pnodesL] at hx
  | cons c cs ih =>
    intro i x hx
    rw [pnodesL] at hx
    rcases List.mem_append.mp hx with hl | hr
    · obtain ⟨y, _, rfl⟩ := List.mem_map.mp hl
      exact ⟨i, y.1, rfl, le_refl i⟩
    · obtain ⟨j, p, hj, hij⟩ := ih (i + 1) x hr
      exact ⟨j, p, hj, by omega⟩

mutual

theorem pnodes_pairwise : ∀ t : Node,
    ((pnodes t).map Prod.fst).Pairwise (fun p q => ¬ q <+: p)
  | .mk d none => by simp [pnodes]
  | .mk d (some cs) => by
    rw [pnodes]
    simp only [List.map_cons, List.pairwise_cons]
    constructor
    · intro q hq
      obtain ⟨x, hx, rfl⟩ := List.mem_map.mp hq
      obtain ⟨j, p, hj, _⟩ := pnodesL_head cs 0 x hx
      rw [hj]
      intro hpre
      simpa using List.eq_nil_of_prefix_nil hpre
    · exact pnodesL_pairwise cs 0

theorem pnodesL_pairwise : ∀ (cs : List Node) (i : ℕ),
    ((pnodesL i cs).map Prod.fst).Pairwise (fun p q => ¬ q <+: p)
  | [], i => by simp [pnodesL]
  | c :: cs, i => by
    rw [pnodesL]
    rw [List.map_append, List.pairwise_append]
    refine ⟨?_, pnodesL_pairwise cs (i + 1), ?_⟩
    · rw [List.map_map]
      have hp := pnodes_pairwise c
      have : (Prod.fst ∘ fun x : List ℕ × Node => (i :: x.1, x.2))
          = (fun p => i :: p) ∘ Prod.fst := rfl
      rw [this, ← List.map_map, List.pairwise_map]
      exact hp.imp (by
        intro p q hpq hpre
        exact hpq ((List.cons_prefix_cons.mp hpre).2))
    · intro a ha b hb
      obtain ⟨x, hx, rfl⟩ := List.mem_map.mp ha
      obtain ⟨x0, hx0, rfl⟩ := List.mem_map.mp hx
      obtain ⟨y, hy, rfl⟩ := List.mem_map.mp hb
      obtain ⟨j, p, hj, hij⟩ := pnodesL_head cs (i + 1) y hy
      rw [hj]
      intro hpre
      have := (List.cons_prefix_cons.mp hpre).1
      omega

end

mutual

theorem dfs_eq_pnodes : ∀ t : Node, dfs t = (pnodes t).map Prod.snd
  | .mk d none => by simp [dfs, pnodes]
  | .mk d (some cs) => by
    rw [dfs, pnodes]
    simp only [List.map_cons]
    rw [dfsL_eq_pnodesL cs 0]

theorem dfsL_eq_pnodesL : ∀ (cs : List Node) (i : ℕ),
    dfsL cs = (pnodesL i cs).map Prod.snd
  | [], i => by simp [dfsL, pnodesL]
  | c :: cs, i => by
    rw [dfsL, pnodesL]
    rw [List.map_append, List.map_map]
    rw [dfs_eq_pnodes c, dfsL_eq_pnodesL cs (i + 1)]
    rfl

end

theorem pnodes_self_mem (t : Node) : ([], t) ∈ pnodes t := by
  cases t with
  | mk d cs =>
    cases cs with
    | none => simp [pnodes]
    | some l => rw [pnodes]; exact List.mem_cons_self _ _

theorem pnodesL_mem_of_get (c : Node) :
    ∀ (l : List Node) (i j : ℕ), l.get? i = some c →
      ∀ x ∈ pnodes c, ((j + i) :: x.1, x.2) ∈ pnodesL j l := by
  intro l
  induction l with
  | nil => intro i j hget; simp at hget
  | cons c0 rest ih =>
    intro i j hget x hx
    cases i with
    | zero =>
      simp only [List.get?] at hget
      injection hget with hc
      subst hc
      rw [pnodesL]
      refine List.mem_append.mpr (Or.inl ?_)
      exact List.mem_map.mpr ⟨x, hx, rfl⟩
    | succ i0 =>
      simp only [List.get?] at hget
      have := ih i0 (j + 1) hget x hx
      rw [pnodesL]
      refine List.mem_append.mpr (Or.inr ?_)
      have harith : j + 1 + i0 = j + (i0 + 1) := by omega
      rwa [harith] at this

mutual

theorem pnodes_child_step : ∀ (t : Node) (p : List ℕ) (d : ND) (cs : List Node),
    (p, Node.mk d (some cs)) ∈ pnodes t →
    ∀ (i : ℕ) (c : Node), cs.get? i = some c → (p ++ [i], c) ∈ pnodes t
  | .mk d0 none => by
    intro p d cs hmem i c hget
    rw [pnodes] at hmem
    simp at hmem
  | .mk d0 (some cs0) => by
    intro p d cs hmem i c hget
    rw [pnodes] at hmem
    rcases List.mem_cons.mp hmem with hhead | htail
    · have hp : p = [] := congrArg Prod.fst hhead
      have hnode : Node.mk d (some cs) = Node.mk d0 (some cs0) := congrArg Prod.snd hhead
      injection hnode with hd hcs
      injection hcs with hcs
      subst hcs
      subst hp
      rw [pnodes]
      refine List.mem_cons.mpr (Or.inr ?_)
      have := pnodesL_mem_of_get c cs i 0 hget ([], c) (pnodes_self_mem c)
      simpa using this
    · rw [pnodes]
      exact List.mem_cons.mpr (Or.inr (pnodesL_child_step cs0 0 p d cs htail i c hget))

theorem pnodesL_child_step : ∀ (l : List Node) (j : ℕ) (p : List ℕ) (d : ND) (cs : List Node),
    (p, Node.mk d (some cs)) ∈ pnodesL j l →
    ∀ (i : ℕ) (c : Node), cs.get? i = some c → (p ++ [i], c) ∈ pnodesL j l
  | [], j => by intro p d cs hmem; rw [pnodesL] at hmem; simp at hmem
  | c0 :: rest, j => by
    intro p d cs hmem i c hget
    rw [pnodesL] at hmem
    rcases List.mem_append.mp hmem with hl | hr
    · obtain ⟨y, hy, hyx⟩ := List.mem_map.mp hl
      have hp : p = j :: y.1 := (congrArg Prod.fst hyx).symm
      have hnode : y.2 = Node.mk d (some cs) := congrArg Prod.snd hyx
      have hy2 : (y.1, Node.mk d (some cs)) ∈ pnodes c0 := by
        rw [← hnode]
        exact hy
      have := pnodes_child_step c0 y.1 d cs hy2 i c hget
      rw [pnodesL]
      refine List.mem_append.mpr (Or.inl ?_)
      subst hp
      exact List.mem_map.mpr ⟨(y.1 ++ [i], c), this, rfl⟩
    · rw [pnodesL]
      exact List.mem_append.mpr (Or.inr (pnodesL_child_step rest (j + 1) p d cs hr i c hget))

end

/-- Normal form of the setTitle callback: only the live "wastedBytes"
branch fires, and only the id field changes. -/
theorem setTitleF_eq (d : ND) :
    setTitleF d = { d with id := some (optToString d.originalId ++ " • " ++
      JVal.roundToString (.num d.size) ++ " • " ++
      JVal.roundToString (JVal.mulR (JVal.jdiv d.wastedBytes d.size) 100)) } := by
  rw [setTitleF, if_neg (by decide : ¬ MODE = "default"),
    if_pos (by decide : MODE = "wastedBytes")]

/-- The setTitle callback is idempotent: it reads only fields it never
writes. -/
theorem setTitleF_idem (d : ND) : setTitleF (setTitleF d) = setTitleF d := by
  rw [setTitleF_eq d, setTitleF_eq]

/-- Applying setTitle twice is the same as applying it once. -/
theorem setTitle_twice (t : Node) : setTitle (setTitle t) = setTitle t := by
  rw [setTitle, dfsMap_comp]
  have : (fun d => setTitleF (setTitleF d)) = setTitleF := funext setTitleF_idem
  rw [this]

/-- The reduce of charSum is the sum of the character codes. -/
theorem charSum_eq_sum (s : String) :
    charSum s = (s.data.map Char.toNat).sum := by
  rw [charSum]
  have h : ∀ (l : List Char) (a : ℕ),
      l.foldl (fun acc c => acc + c.toNat) a = a + (l.map Char.toNat).sum := by
    intro l
    induction l with
    | nil => intro a; simp
    | cons c cs ih => intro a; simp [List.foldl_cons, ih (a + c.toNat)]; omega
  simpa using h s.data 0

/-- Every node below a root of a constructed viewer carries the charSum of
that root id as its idHash. -/
theorem make_node_idHash (documentUrl : String) (rootNodes : List RootNode)
    (r : RootNode) (hr : r ∈ (TreemapViewer.make documentUrl rootNodes).rootNodes) :
    ∀ n ∈ dfs r.node, n.data.idHash = some (charSum r.id) := by
  simp only [TreemapViewer.make, webtreemapSort] at hr
  obtain ⟨r0, hr0, rfl⟩ := List.mem_map.mp hr
  intro n hn
  have hmap := dfs_dfsMap (fun d => { d with idHash := some (charSum r0.id) })
    (dfsMap (fun d => { d with originalId := d.id }) r0.node)
  have hdn : n.data ∈ (dfs (dfsMap (fun d => { d with idHash := some (charSum r0.id) })
      (dfsMap (fun d => { d with originalId := d.id }) r0.node))).map Node.data :=
    List.mem_map.mpr ⟨n, hn, rfl⟩
  rw [hmap] at hdn
  obtain ⟨m, _, heq⟩ := List.mem_map.mp hdn
  rw [← heq]

/-- A concrete leaf node used by the witnesses: the node of the end-to-end
scenario of the specification. -/
def sampleLeaf : Node := .mk { id := some "a.js", size := 100, wastedBytes := 40 } none

/-- A concrete two-level tree used by the witnesses. -/
def sampleTree : Node :=
  .mk { id := some "root", size := 100, wastedBytes := 40 } (some [sampleLeaf])

/-- The root entry of the end-to-end scenario of the specification. -/
def sampleRoot : RootNode := { id := "a.js", group := "javascript", node := sampleLeaf }

/-- The viewer of the end-to-end scenario. -/
def sampleViewer : TreemapViewer := TreemapViewer.make "https://x" [sampleRoot]

/-- A viewer with no roots at all. -/
def emptyViewer : TreemapViewer := TreemapViewer.make "https://x" []

/-- The annotated leaf as it sits inside sampleViewer after construction. -/
def annotatedLeaf : Node :=
  .mk { id := some "a.js", size := 100, wastedBytes := 40,
        originalId := some "a.js", idHash := some (charSum "a.js") } none

/-- The annotated root entry of sampleViewer. -/
def annotatedRoot : RootNode :=
  { id := "a.js", group := "javascript", node := annotatedLeaf }

/-- C1: for the reserved synthetic id "javascript", show builds an
aggregate whose size and wastedBytes are the sums of the respective fields
over exactly the roots whose group is "javascript", with those roots top
nodes as its direct children; zero matching roots give a zero-size,
zero-waste aggregate with an empty child list; and show hands exactly this
aggregate to the clone / relabel / layout / recolor pipeline. -/
theorem show_javascript_aggregate (v : TreemapViewer) :
    (aggregateNode v "javascript").data.size =
      ((v.rootNodes.filter (fun r => r.group = "javascript")).map
        (fun r => r.node.data.size)).sum ∧
    (aggregateNode v "javascript").data.wastedBytes =
      ((v.rootNodes.filter (fun r => r.group = "javascript")).map
        (fun r => r.node.data.wastedBytes)).sum ∧
    (aggregateNode v "javascript").children =
      some ((v.rootNodes.filter (fun r => r.group = "javascript")).map
        (fun r => r.node)) ∧
    (v.rootNodes.filter (fun r => r.group = "javascript") = [] →
      (aggregateNode v "javascript").data.size = 0 ∧
      (aggregateNode v "javascript").data.wastedBytes = 0 ∧
      (aggregateNode v "javascript").children = some []) ∧
    v.showId "javascript" =
      some { v with
             currentRootNode :=
               some (updateColors (webtreemapRender (setTitle (jsonClone
                 (aggregateNode v "javascript"))))) } := by
  refine ⟨?_, ?_, ?_, ?_, ?_⟩
  · simp only [aggregateNode, Node.data]
    rw [foldl_add_field, List.map_map]
    simp only [add_zero]
    rfl
  · simp only [aggregateNode, Node.data]
    rw [foldl_add_field, List.map_map]
    simp only [add_zero]
    rfl
  · simp [aggregateNode, Node.children]
  · intro h
    simp [aggregateNode, Node.data, Node.children, h]
  · rw [TreemapViewer.showId]
    simp

/-- Witness for C1 at a viewer with no matching roots. -/
theorem show_javascript_aggregate_witness :
    (emptyViewer.rootNodes.filter (fun r => r.group = "javascript") = []) ∧
    ((aggregateNode emptyViewer "javascript").data.size = 0 ∧
     (aggregateNode emptyViewer "javascript").data.wastedBytes = 0 ∧
     (aggregateNode emptyViewer "javascript").children = some []) :=
  ⟨rfl, (show_javascript_aggregate emptyViewer).2.2.2.1 rfl⟩

/-- C3: dfs visits, in order, exactly the subtrees at the positions the
pre-order enumeration pnodes lists; no later position is a prefix of an
earlier one (so every position is visited exactly once and a parent is
visited strictly before each of its descendants); the root position is
listed, positions are closed under stepping to a present child, and a node
without a children field is a one-element traversal (dfs recurses only
when children is present). -/
theorem dfs_preorder (t : Node) :
    dfs t = (pnodes t).map Prod.snd ∧
    ((pnodes t).map Prod.fst).Pairwise (fun p q => ¬ q <+: p) ∧
    ([], t) ∈ pnodes t ∧
    (∀ (p : List ℕ) (d : ND) (cs : List Node),
      (p, Node.mk d (some cs)) ∈ pnodes t →
      ∀ (i : ℕ) (c : Node), cs.get? i = some c → (p ++ [i], c) ∈ pnodes t) ∧
    (∀ d : ND, dfs (Node.mk d none) = [Node.mk d none]) :=
  ⟨dfs_eq_pnodes t, pnodes_pairwise t, pnodes_self_mem t,
    pnodes_child_step t, fun d => by rw [dfs]⟩

/-- Witness for C3 on a concrete two-level tree. -/
theorem dfs_preorder_witness :
    (([], sampleTree) ∈ pnodes sampleTree) ∧
    ([sampleLeaf].get? 0 = some sampleLeaf) ∧
    (([] ++ [0], sampleLeaf) ∈ pnodes sampleTree) :=
  ⟨pnodes_self_mem sampleTree, rfl,
    (dfs_preorder sampleTree).2.2.2.1 []
      { id := some "root", size := 100, wastedBytes := 40 } [sampleLeaf]
      (pnodes_self_mem sampleTree) 0 sampleLeaf rfl⟩

/-- C5: after construction, every node below a root carries as idHash the
sum of the character codes of that root id (charSum, shown equal to that
sum), so the hash is identical across a root subtree and two roots whose
character-code sums coincide get equal hashes. -/
theorem make_idHash_per_root :
    (∀ s : String, charSum s = (s.data.map Char.toNat).sum) ∧
    (∀ (documentUrl : String) (rootNodes : List RootNode) (r : RootNode),
      r ∈ (TreemapViewer.make documentUrl rootNodes).rootNodes →
      ∀ n ∈ dfs r.node, n.data.idHash = some (charSum r.id)) ∧
    (∀ (documentUrl : String) (rootNodes : List RootNode) (r1 r2 : RootNode),
      r1 ∈ (TreemapViewer.make documentUrl rootNodes).rootNodes →
      r2 ∈ (TreemapViewer.make documentUrl rootNodes).rootNodes →
      charSum r1.id = charSum r2.id →
      ∀ n1 ∈ dfs r1.node, ∀ n2 ∈ dfs r2.node,
        n1.data.idHash = n2.data.idHash) := by
  refine ⟨charSum_eq_sum, make_node_idHash, ?_⟩
  intro documentUrl rootNodes r1 r2 h1 h2 hsum n1 hn1 n2 hn2
  rw [make_node_idHash documentUrl rootNodes r1 h1 n1 hn1,
    make_node_idHash documentUrl rootNodes r2 h2 n2 hn2, hsum]

/-- Witness for C5 on the sample viewer. -/
theorem make_idHash_per_root_witness :
    (annotatedRoot ∈ sampleViewer.rootNodes) ∧
    (annotatedLeaf ∈ dfs annotatedRoot.node) ∧
    annotatedLeaf.data.idHash = some (charSum annotatedRoot.id) := by
  have hmem : annotatedRoot ∈ sampleViewer.rootNodes := by
    simp only [sampleViewer, TreemapViewer.make, webtreemapSort, sampleRoot,
      sampleLeaf, List.map_cons, List.map_nil, dfsMap, annotatedRoot, annotatedLeaf]
    exact List.mem_singleton.mpr rfl
  have hleaf : annotatedLeaf ∈ dfs annotatedRoot.node := by
    simp only [annotatedRoot, annotatedLeaf, dfs]
    exact List.mem_singleton.mpr rfl
  exact ⟨hmem, hleaf, make_idHash_per_root.2.1 "https://x" [sampleRoot]
    annotatedRoot hmem annotatedLeaf hleaf⟩

/-- C6: relabeling is idempotent with respect to originalId: any positive
number of setTitle passes equals a single pass, since the label is always
computed from originalId and never from the previously written id. -/
theorem setTitle_idempotent (t : Node) (n : ℕ) :
    setTitle^[n + 1] t = setTitle t := by
  induction n with
  | zero => simp
  | succ k ih =>
    rw [Function.iterate_succ_apply', ih, setTitle_twice]

/-- The scenario node data with originalId a.js, size 100, wastedBytes 40. -/
def scenarioData : ND :=
  { id := some "a.js", size := 100, wastedBytes := 40,
    originalId := some "a.js" }

/-- The scenario node data as updateColors sees it after layout. -/
def scenarioColorData : ND :=
  { id := some "a.js", size := 100, wastedBytes := 40,
    idHash := some (charSum "a.js"), hasDom := true }

/-- A rendered node of size zero. -/
def zeroSizeData : ND :=
  { id := some "z.js", size := 0, wastedBytes := 0, idHash := some 1,
    hasDom := true }

/-- C2: setTitle rewrites, at every node of the tree, the display id to
originalId, the rounded size and the rounded percentage wastedBytes / size
* 100 joined by bullets (stated over the exact rational value for nonzero
size, where JavaScript and rational division agree); in particular the
scenario node with originalId a.js, size 100 and wastedBytes 40 is
labelled "a.js • 100 • 40". -/
theorem setTitle_wastedBytes_label :
    (∀ t : Node, (dfs (setTitle t)).map Node.data
      = (dfs t).map (fun n => setTitleF n.data)) ∧
    (∀ d : ND, d.size ≠ 0 →
      (setTitleF d).id = some (optToString d.originalId ++ " • " ++
        toString (⌊d.size + 1 / 2⌋ : ℤ) ++ " • " ++
        toString (⌊d.wastedBytes / d.size * 100 + 1 / 2⌋ : ℤ))) ∧
    (setTitleF scenarioData).id = some "a.js • 100 • 40" := by
  refine ⟨fun t => dfs_dfsMap setTitleF t, ?_, ?_⟩
  · intro d hd
    rw [setTitleF_eq]
    simp only [JVal.jdiv, if_neg hd, JVal.mulR, JVal.mulL, JVal.roundToString]
    rw [mul_comm (100 : ℚ) (d.wastedBytes / d.size)]
  · have h : ((JVal.jdiv 40 100).mulR 100) = .num 40 := by
      rw [JVal.jdiv]
      norm_num [JVal.mulR, JVal.mulL]
    rw [setTitleF_eq]
    simp only [scenarioData, h, JVal.roundToString, optToString]
    norm_num
    decide

/-- Witness for C2 at the scenario node. -/
theorem setTitle_wastedBytes_label_witness :
    (scenarioData.size ≠ 0) ∧
    (setTitleF scenarioData).id
      = some (optToString scenarioData.originalId ++ " • " ++
        toString (⌊scenarioData.size + 1 / 2⌋ : ℤ) ++ " • " ++
        toString (⌊scenarioData.wastedBytes / scenarioData.size * 100
          + 1 / 2⌋ : ℤ)) :=
  ⟨by norm_num [scenarioData],
    setTitle_wastedBytes_label.2.1 scenarioData (by norm_num [scenarioData])⟩

/-- C4: updateColors recolors every node through its callback; on a
rendered node of positive size, the lightness is exactly the rational
interpolation 25 + (85 - 25) * (1 - wastedBytes / size), the background is
the hsl string of the selected palette entry with that lightness rounded
half-up, and the text color is black exactly when the unrounded lightness
exceeds 50; a fully wasted node has lightness 25 and a fully used one 85;
the scenario node with size 100 and wastedBytes 40 gets rounded lightness
61 and black text. -/
theorem updateColors_shading :
    (∀ t : Node, (dfs (updateColors t)).map Node.data
      = (dfs t).map (fun n => updateColorsF n.data)) ∧
    (∀ d : ND, d.hasDom = true → 0 < d.size →
      lightness d = .num (25 + (85 - 25) * (1 - d.wastedBytes / d.size)) ∧
      (updateColorsF d).styleColor =
        some (if 50 < 25 + (85 - 25) * (1 - d.wastedBytes / d.size)
          then "black" else "white") ∧
      (∃ c, selectColor d.idHash = some c ∧
        (updateColorsF d).styleBackgroundColor =
          some (hsl c.1 c.2 (toString
            (⌊25 + (85 - 25) * (1 - d.wastedBytes / d.size) + 1 / 2⌋ : ℤ)))) ∧
      (d.wastedBytes = d.size →
        25 + (85 - 25) * (1 - d.wastedBytes / d.size) = (25 : ℚ)) ∧
      (d.wastedBytes = 0 →
        25 + (85 - 25) * (1 - d.wastedBytes / d.size) = (85 : ℚ))) ∧
    (⌊25 + (85 - 25) * (1 - (40 : ℚ) / 100) + 1 / 2⌋ : ℤ) = 61 ∧
    (updateColorsF scenarioColorData).styleColor = some "black" := by
  refine ⟨fun t => dfs_dfsMap updateColorsF t, ?_, by norm_num, ?_⟩
  · intro d hdom hpos
    have hne : d.size ≠ 0 := ne_of_gt hpos
    have hl : lightness d = .num (25 + (85 - 25) * (1 - d.wastedBytes / d.size)) := by
      rw [lightness, JVal.jdiv, if_neg hne]
      simp [JVal.subL, JVal.mulL, JVal.addL]
    obtain ⟨c, hc⟩ := selectColor_isSome d.idHash
    refine ⟨hl, ?_, ⟨c, hc, ?_⟩, ?_, ?_⟩
    · rw [updateColorsF]
      simp [hdom, hc, hl, JVal.gt]
    · rw [updateColorsF]
      simp [hdom, hc, hl, JVal.roundToString]
    · intro hw
      rw [hw, div_self hne]
      ring
    · intro hw
      rw [hw, zero_div]
      ring
  · have hd : JVal.jdiv (40 : ℚ) 100 = .num (2 / 5) := by
      rw [JVal.jdiv]
      norm_num
    rw [updateColorsF]
    simp only [scenarioColorData, lightness, hd, JVal.subL, JVal.mulL,
      JVal.addL, JVal.gt, selectColor, colors]
    norm_num
    decide

/-- Witness for C4 at the scenario node. -/
theorem updateColors_shading_witness :
    (scenarioColorData.hasDom = true) ∧
    ((0 : ℚ) < scenarioColorData.size) ∧
    (updateColorsF scenarioColorData).styleColor
      = some (if 50 < 25 + (85 - 25) *
          (1 - scenarioColorData.wastedBytes / scenarioColorData.size)
          then "black" else "white") :=
  ⟨rfl, by norm_num [scenarioColorData],
    (updateColors_shading.2.1 scenarioColorData rfl
      (by norm_num [scenarioColorData])).2.1⟩

/-- C10: on a rendered node of size zero (with the nonnegative wastedBytes
of the data model), the lightness is non-finite (NaN or -Infinity), the
comparison with 50 is false, and updateColors therefore writes white text. -/
theorem updateColors_zeroSize_white (d : ND)
    (hdom : d.hasDom = true) (hz : d.size = 0) (hw : 0 ≤ d.wastedBytes) :
    (lightness d = JVal.nan ∨ lightness d = JVal.ninf) ∧
    (lightness d).gt 50 = false ∧
    (updateColorsF d).styleColor = some "white" := by
  have hl : lightness d = JVal.nan ∨ lightness d = JVal.ninf := by
    rcases lt_or_eq_of_le hw with hpos | hzero
    · right
      rw [lightness, JVal.jdiv, if_pos hz, if_pos hpos]
      norm_num [JVal.subL, JVal.mulL, JVal.addL]
    · left
      rw [lightness, JVal.jdiv, if_pos hz,
        if_neg (by rw [← hzero]; exact lt_irrefl 0),
        if_neg (by rw [← hzero]; exact lt_irrefl 0)]
      simp [JVal.subL, JVal.mulL, JVal.addL]
  have hgt : (lightness d).gt 50 = false := by
    rcases hl with h | h <;> rw [h] <;> rfl
  obtain ⟨c, hc⟩ := selectColor_isSome d.idHash
  refine ⟨hl, hgt, ?_⟩
  rw [updateColorsF]
  simp [hdom, hc, hgt]

/-- Witness for C10 at a concrete zero-size rendered node. -/
theorem updateColors_zeroSize_white_witness :
    (zeroSizeData.hasDom = true) ∧
    (zeroSizeData.size = 0) ∧
    ((0 : ℚ) ≤ zeroSizeData.wastedBytes) ∧
    (updateColorsF zeroSizeData).styleColor = some "white" :=
  ⟨rfl, rfl, by norm_num [zeroSizeData],
    (updateColors_zeroSize_white zeroSizeData rfl rfl
      (by norm_num [zeroSizeData])).2.2⟩

/-- Any successful show leaves every field except currentRootNode as it
was. -/
theorem showId_result (v : TreemapViewer) (id : String) (v1 : TreemapViewer)
    (h : v.showId id = some v1) :
    ∃ cur, v1 = { v with currentRootNode := cur } := by
  rw [TreemapViewer.showId] at h
  by_cases hid : id = "javascript"
  · rw [if_pos hid] at h
    simp only [Option.some.injEq] at h
    exact ⟨_, h.symm⟩
  · rw [if_neg hid] at h
    cases hf : v.rootNodes.find? (fun rootNode => rootNode.id = id) with
    | none =>
      rw [hf] at h
      simp at h
    | some r =>
      rw [hf] at h
      simp only [Option.map_some', Option.some.injEq] at h
      exact ⟨_, h.symm⟩

/-- show reads only documentUrl and rootNodes, so two viewers agreeing on
those fields show identically. -/
theorem showId_congr (va vb : TreemapViewer)
    (hr : va.rootNodes = vb.rootNodes) (hd : va.documentUrl = vb.documentUrl)
    (id : String) : va.showId id = vb.showId id := by
  obtain ⟨da, ra, ca⟩ := va
  obtain ⟨db, rb, cb⟩ := vb
  have hr2 : ra = rb := hr
  have hd2 : da = db := hd
  subst hr2
  subst hd2
  rfl

/-- C7: show deep-clones the chosen tree before relabeling and layout, so
a successful show leaves rootNodes (and documentUrl) unchanged, any later
mutation of the shown tree still leaves rootNodes unchanged, and the
resulting viewer shows any further selection exactly as the original
viewer would (rootNodes stay reusable across selection changes). -/
theorem show_preserves_rootNodes (v : TreemapViewer) (id : String)
    (v1 : TreemapViewer) (hshow : v.showId id = some v1) :
    v1.rootNodes = v.rootNodes ∧
    v1.documentUrl = v.documentUrl ∧
    (∀ f : Node → Node, (mutateCurrent f v1).rootNodes = v.rootNodes) ∧
    (∀ (g : Node → Node) (id2 : String),
      (mutateCurrent g v1).showId id2 = v.showId id2) := by
  obtain ⟨cur, rfl⟩ := showId_result v id v1 hshow
  exact ⟨rfl, rfl, fun f => rfl, fun g id2 => showId_congr _ _ rfl rfl id2⟩

/-- Witness for C7: showing the synthetic aggregate on the sample viewer. -/
theorem show_preserves_rootNodes_witness :
    (sampleViewer.showId "javascript"
      = some { sampleViewer with
               currentRootNode :=
                 some (updateColors (webtreemapRender (setTitle (jsonClone
                   (aggregateNode sampleViewer "javascript"))))) }) ∧
    ({ sampleViewer with
       currentRootNode :=
         some (updateColors (webtreemapRender (setTitle (jsonClone
           (aggregateNode sampleViewer "javascript"))))) }).rootNodes
      = sampleViewer.rootNodes :=
  ⟨rfl, (show_preserves_rootNodes sampleViewer "javascript" _ rfl).1⟩

/-- C8: the message listener returns with no error and no state change
when e.source is not the opener, or any of documentUrl, id, rootNodes is
missing or falsy. -/
theorem handleMessage_ignores (st : AppState) (m : Msg)
    (h : m.fromOpener = false ∨ m.rootNodes = none ∨
      strFalsy m.documentUrl = true ∨ strFalsy m.id = true) :
    handleMessage st m = some st := by
  rw [handleMessage]
  cases hfo : m.fromOpener with
  | false => simp
  | true =>
    simp only [Bool.not_true, Bool.false_eq_true, if_false]
    have h3 : m.rootNodes = none ∨ strFalsy m.documentUrl = true ∨
        strFalsy m.id = true := by
      rcases h with h | h | h | h
      · rw [hfo] at h
        cases h
      · exact Or.inl h
      · exact Or.inr (Or.inl h)
      · exact Or.inr (Or.inr h)
    cases hrn : m.rootNodes with
    | none => rfl
    | some rns =>
      cases hdu : m.documentUrl with
      | none => rfl
      | some du =>
        cases hid : m.id with
        | none => rfl
        | some i =>
          rcases h3 with h3 | h3 | h3
          · rw [hrn] at h3
            cases h3
          · rw [hdu] at h3
            rw [strFalsy] at h3
            simp only [h3, Bool.true_or, if_true]
          · rw [hid] at h3
            rw [strFalsy] at h3
            simp only [h3, Bool.or_true, if_true]

/-- A concrete window state for the C8 witness. -/
def sampleState : AppState :=
  { options := [], selectorValue := none, viewer := none, posted := [],
    openerAlive := true }

/-- A message from a window that is not the opener. -/
def strangerMsg : Msg :=
  { fromOpener := false, documentUrl := some "https://x", id := some "a.js",
    rootNodes := some [sampleRoot] }

/-- Witness for C8 at a message whose source is not the opener. -/
theorem handleMessage_ignores_witness :
    (strangerMsg.fromOpener = false) ∧
    handleMessage sampleState strangerMsg = some sampleState :=
  ⟨rfl, handleMessage_ignores sampleState strangerMsg (Or.inl rfl)⟩

/-- C9 counterexample: the synthetic aggregate root reaches updateColors
(after layout it carries a rendered element) with no idHash at all; there
the lookup without the fallback yields no palette entry (undefined, whose
property access would throw), while the actual lookup with the fallback
yields palette entry 0 — so the fallback is not redundant for every node
processed by updateColors. -/
theorem colorFallback_counterexample :
    (webtreemapRender (setTitle (jsonClone (aggregateNode emptyViewer
      "javascript")))).data.idHash = none ∧
    (webtreemapRender (setTitle (jsonClone (aggregateNode emptyViewer
      "javascript")))).data.hasDom = true ∧
    selectColorNoFallback none = none ∧
    selectColor none = some (30, 60) ∧
    selectColorNoFallback none ≠ selectColor none := by
  refine ⟨?_, ?_, rfl, rfl, by decide⟩ <;>
    simp [aggregateNode, emptyViewer, TreemapViewer.make, jsonClone,
      jsonCloneL, setTitle, dfsMap, dfsMapL, webtreemapRender, setTitleF_eq,
      Node.data]

/-- C9 amended: for every node that carries a numeric idHash (every node
belonging to a real root), removing the fallback selects the same palette
entry, so the fallback is redundant exactly on hashed nodes. -/
theorem colorFallback_redundant_for_hashed (h : ℕ) :
    selectColorNoFallback (some h) = selectColor (some h) := by
  rw [selectColor, selectColorNoFallback]
